import Mathlib

/-!
# TerraFE template acquisition and caching layer: a verification model

This file gives a shallow embedding of the `CacheManager` class of TerraFE
(`lib/cache/CacheManager.js`) and proves properties of its reference
resolution (`parseGitUrl`), cache validity (`isCacheValid`), template
orchestration (`getTemplate` / `downloadAndCache`) and subdirectory
extraction (`extractSubdirectory`).

Modelling conventions:
* JavaScript strings are Lean `String`s; the string primitives used by the
  source (`split`, `includes`, `startsWith`, the three regular expressions,
  and the WHATWG `URL` pathname) are modelled by structurally recursive
  functions over `List Char` so that every concrete evaluation reduces in
  the kernel.
* Timestamps (`Date.now()`) are `Int` (epoch milliseconds).
* The filesystem under the cache root is explicit state: a `CacheState`
  records which cache-entry directories exist and the parsed contents of
  the metadata files; template content is a tree (`FTree`) of named
  directories and files.  `fileUtils` (`lib/utils/file.js`) is a documented
  thin pass-through over `fs-extra` (`copy = fs.copy`, `exists =
  fs.existsSync`, ...), so its operations are modelled with the standard
  `fs-extra` semantics: `readdir` on a non-directory fails, `move` onto an
  existing destination fails, `copy` of a directory onto a freshly created
  empty directory reproduces the source's children.
* The network downloader (`download-git-repo`) is external; a call to it is
  represented by a `FetchOutcome` oracle value saying whether the
  download-and-extract phase succeeded, and whether a partially populated
  directory was left behind on failure.
-/

/-! ## String primitives (JavaScript semantics, `List Char` based) -/

/-- JavaScript `s.split(sep)` for a one-character separator.
`chSplit sep []` is `[[]]` because `"".split(sep)` is `[""]`. -/
def chSplit (sep : Char) : List Char → List (List Char)
  | [] => [[]]
  | c :: cs =>
    let r := chSplit sep cs
    if c = sep then [] :: r
    else
      match r with
      | h :: t => (c :: h) :: t
      | [] => [[c]]

/-- Does `p` occur at the very start of `s`?  (JavaScript `startsWith`.) -/
def chLeads : List Char → List Char → Bool
  | [], _ => true
  | _ :: _, [] => false
  | p :: ps, c :: cs => p == c && chLeads ps cs

/-- Does `pat` occur contiguously anywhere in `s`?  (JavaScript `includes`.) -/
def chContains (pat : List Char) : List Char → Bool
  | [] => pat.isEmpty
  | c :: cs => chLeads pat (c :: cs) || chContains pat cs

/-- Split at the first occurrence of `sep`: `chBreakAt sep s = some (a, b)`
iff `s = a ++ sep :: b` with `sep ∉ a`. -/
def chBreakAt (sep : Char) : List Char → Option (List Char × List Char)
  | [] => none
  | c :: cs =>
    if c = sep then some ([], cs)
    else (chBreakAt sep cs).map fun p => (c :: p.1, p.2)

/-- Truncate at the first `'#'` or `'?'` (end of a URL path). -/
def chDropFrag : List Char → List Char
  | [] => []
  | c :: cs => if c = '#' || c = '?' then [] else c :: chDropFrag cs

/-- Join with a separator (JavaScript `Array.prototype.join`). -/
def chJoin (sep : List Char) : List (List Char) → List Char
  | [] => []
  | [x] => x
  | x :: xs => x ++ sep ++ chJoin sep xs

/-- JavaScript `s.includes(sub)`. -/
def strContains (s sub : String) : Bool := chContains sub.data s.data

/-- JavaScript `s.startsWith(sub)`. -/
def strStarts (s sub : String) : Bool := chLeads sub.data s.data

/-- JavaScript `s.split(sep)` for a one-character separator. -/
def strSplit (s : String) (sep : Char) : List String :=
  (chSplit sep s.data).map String.mk

/-- JavaScript `parts.join("/")`. -/
def strJoin (sep : String) (xs : List String) : String :=
  String.mk (chJoin sep.data (xs.map String.data))

/-! ## Reference resolution: `CacheManager.parseGitUrl`

The source (create.js lines 660–726) tries, in order:
1. a `github.com` URL parsed with `new URL` (errors caught, falling through);
2. the regex `^[^\/]+\/[^\/]+$` (bare `owner/repo`);
3. the regex `^([^\/]+\/[^\/]+)#([^:]+)$` (`owner/repo#branch`);
4. the regex `^([^\/]+\/[^\/]+)#([^:]+):(.+)$` (`owner/repo#branch:subdir`);
5. a `direct:` passthrough;
6. returning the input unchanged.
-/

/-- The regex `^[^\/]+\/[^\/]+$`: exactly one `/`, both sides non-empty. -/
def chBareRepo (s : List Char) : Bool :=
  match chSplit '/' s with
  | [a, b] => !a.isEmpty && !b.isEmpty
  | _ => false

/-- The regex `^[^\/]+\/[^\/]+$` on a string. -/
def matchBareRepo (s : String) : Bool := chBareRepo s.data

/-- All decompositions `s = pre ++ '#' :: suf`, in left-to-right order of
the position of the `'#'`. -/
def hashSplits : List Char → List (List Char × List Char)
  | [] => []
  | c :: cs =>
    let rest := (hashSplits cs).map fun p => (c :: p.1, p.2)
    if c = '#' then ([], cs) :: rest else rest

/-- The regex `^([^\/]+\/[^\/]+)#([^:]+)$` with JavaScript's greedy
backtracking: the match taking the latest possible `'#'` whose prefix is a
bare `owner/repo` and whose suffix is non-empty and colon-free. -/
def branchRule (s : String) : Option (String × String) :=
  ((hashSplits s.data).reverse.find? fun p =>
      chBareRepo p.1 && !p.2.isEmpty && !chContains [':'] p.2).map
    fun p => (String.mk p.1, String.mk p.2)

/-- The regex `^([^\/]+\/[^\/]+)#([^:]+):(.+)$` with greedy backtracking:
the latest `'#'` whose prefix is a bare `owner/repo` and whose suffix
splits at its first `':'` into two non-empty parts. -/
def subdirRule (s : String) : Option (String × String × String) :=
  ((hashSplits s.data).reverse.find? fun p =>
      chBareRepo p.1 &&
        (match chBreakAt ':' p.2 with
         | some q => !q.1.isEmpty && !q.2.isEmpty
         | none => false)).map
    fun p =>
      match chBreakAt ':' p.2 with
      | some q => (String.mk p.1, String.mk q.1, String.mk q.2)
      | none => (String.mk p.1, "", "")

/-- Is `s` a valid URL scheme (`ALPHA *( ALPHA / DIGIT / "+" / "-" / "." )`)? -/
def chSchemeOk : List Char → Bool
  | [] => false
  | c :: cs => c.isAlpha && cs.all fun d => d.isAlphanum || d == '+' || d == '-' || d == '.'

/-- The `pathname` of `new URL(s)` (WHATWG), for the URL shapes this
program feeds it: a special URL `scheme://host/path` yields `/path`
(query/fragment stripped); a non-special URL `scheme:opaque` yields the
opaque path; a string without a valid scheme throws (`none`). -/
def urlPathname (s : String) : Option String :=
  match chBreakAt ':' s.data with
  | none => none
  | some (scheme, rest) =>
    if chSchemeOk scheme then
      match rest with
      | '/' :: '/' :: hier =>
        match chBreakAt '/' hier with
        | none => some "/"
        | some (_auth, path) => some (String.mk ('/' :: chDropFrag path))
      | _ => some (String.mk (chDropFrag rest))
    else none

/-- `CacheManager.parseGitUrl` (create.js lines 660–726), translated
branch for branch.  A `github.com`-containing reference is parsed with
`new URL`; a parse failure or a pathname with fewer than two segments
falls through to the shorthand regexes. -/
def parseGitUrl (repoUrl : String) : String :=
  let githubCase : Option String :=
    if strContains repoUrl "github.com" then
      match urlPathname repoUrl with
      | some pathname =>
        let pathParts := ((chSplit '/' pathname.data).map String.mk).filter fun p => p ≠ ""
        match pathParts with
        | owner :: repo :: restParts =>
          match restParts with
          | "tree" :: treeRest =>
            let branch := match treeRest with | [] => "main" | b :: _ => b
            let subdirectory := strJoin "/" (treeRest.drop 1)
            if subdirectory ≠ "" then
              some ("direct:" ++ ("https://github.com/" ++ owner ++ "/" ++ repo ++
                "/archive/" ++ branch ++ ".zip") ++ "#" ++ subdirectory)
            else
              some ("direct:" ++ ("https://github.com/" ++ owner ++ "/" ++ repo ++
                "/archive/" ++ branch ++ ".zip"))
          | _ =>
            some ("direct:" ++ ("https://github.com/" ++ owner ++ "/" ++ repo ++
              "/archive/main.zip"))
        | _ => none
      | none => none
    else none
  match githubCase with
  | some result => result
  | none =>
    if matchBareRepo repoUrl then
      "direct:" ++ ("https://github.com/" ++ repoUrl ++ "/archive/main.zip")
    else
      match branchRule repoUrl with
      | some (repo, branch) =>
        "direct:" ++ ("https://github.com/" ++ repo ++ "/archive/" ++ branch ++ ".zip")
      | none =>
        match subdirRule repoUrl with
        | some (repo, branch, subdirectory) =>
          "direct:" ++ ("https://github.com/" ++ repo ++ "/archive/" ++ branch ++ ".zip") ++
            "#" ++ subdirectory
        | none =>
          if strStarts repoUrl "direct:" then repoUrl else repoUrl

/-! ## Filesystem trees and `CacheManager.extractSubdirectory`

A directory's contents are an association list of named entries (real
directories have pairwise distinct names; lookups take the first match).
`extractSubdirectory` (create.js lines 894–986) operates on the children
of the download directory and threads the tree through each
`fileUtils` call; it returns the final tree together with the error (if
any) that was thrown, since a thrown error leaves the directory in
whatever state had been reached.
-/

/-- A file (with its contents) or a directory of named entries. -/
inductive FTree where
  | file (content : String) : FTree
  | dir (children : List (String × FTree)) : FTree

/-- First association for a name in a listing (real directories have
pairwise distinct names, so first-match is the lookup). -/
def alistFind {β : Type} : List (String × β) → String → Option β
  | [], _ => none
  | (m, u) :: rest, n => if m == n then some u else alistFind rest n

/-- First entry named `n`, if any (`fs` lookup of one path segment). -/
def lookupTop (cs : List (String × FTree)) (n : String) : Option FTree :=
  alistFind cs n

/-- Replace the first entry named `n`, or append it (`fs` write). -/
def setTop (cs : List (String × FTree)) (n : String) (v : FTree) : List (String × FTree) :=
  match cs with
  | [] => [(n, v)]
  | (m, u) :: rest => if m == n then (n, v) :: rest else (m, u) :: setTop rest n v

/-- Delete the first entry named `n` (`fs.remove`; absent is a no-op). -/
def removeTop (cs : List (String × FTree)) (n : String) : List (String × FTree) :=
  match cs with
  | [] => []
  | (m, u) :: rest => if m == n then rest else (m, u) :: removeTop rest n

/-- Resolve a relative path; `none` when a segment is missing or descends
into a file.  `fileUtils.exists p` is `(lookupPath t p).isSome`. -/
def lookupPath : FTree → List String → Option FTree
  | t, [] => some t
  | FTree.file _, _ :: _ => none
  | FTree.dir cs, n :: rest =>
    match lookupTop cs n with
    | some c => lookupPath c rest
    | none => none

/-- `fs.ensureDir` of a top-level entry: create an empty directory if the
name is absent (a fresh directory is appended at the end of the listing). -/
def ensureDirTop (cs : List (String × FTree)) (n : String) : List (String × FTree) :=
  if (lookupTop cs n).isSome then cs else cs ++ [(n, FTree.dir [])]

/-- `path.join` semantics for the lookup of `rootPath/subdirectory`:
empty segments (from `//` or a trailing `/`) are dropped. -/
def pathSegs (s : String) : List String :=
  (strSplit s '/').filter fun p => p ≠ ""

/-- The errors `extractSubdirectory` can raise. -/
inductive ExErr where
  /-- create.js line 947: `子目录 ... 不存在：找不到 <segment> 在 <path>`,
  raised with the missing segment and the listing of its level. -/
  | subdirMissing (segment : String) (siblings : List String) : ExErr
  /-- create.js line 952: the fallback `子目录 ... 不存在` (no segment named). -/
  | genericMissing : ExErr
  /-- `fs.readdir` during the segment walk hit an existing path that is a
  file, not a directory (`ENOTDIR`); the error does not name a segment. -/
  | walkReadFailed : ExErr
  /-- `fs.copy` refuses a copy of a directory onto itself or into its own
  subtree. -/
  | copyFailed : ExErr
  /-- `fs.move` refuses to move onto an existing destination
  (`dest already exists.`). -/
  | moveDestFound (name : String) : ExErr
  deriving DecidableEq

/-- The recovery walk of create.js lines 929–953: step through the raw
`subdirectory.split('/')` segments from the resolved root, reading each
level's listing, and report the first segment that cannot be found
together with the listing (`可用选项`) of its level.  `path.join` with an
empty segment leaves the path unchanged.  Reading a level that is a file
fails with `ENOTDIR` instead. -/
def firstMissingWalk (t : FTree) (cur : List String) : List String → ExErr
  | [] => ExErr.genericMissing
  | p :: rest =>
    match lookupPath t cur with
    | some (FTree.dir cs) =>
      let nxt := if p = "" then cur else cur ++ [p]
      if (lookupPath t nxt).isSome then firstMissingWalk t nxt rest
      else ExErr.subdirMissing p (cs.map Prod.fst)
    | _ => ExErr.walkReadFailed

/-- The staging directory name used by `extractSubdirectory`. -/
def tempName : String := "temp-extract"

/-- The archive-wrapper rule (create.js lines 905–918): if the download
directory has exactly one entry and it is a directory, that entry is the
root; otherwise the download directory itself is. Purely structural. -/
def resolveRoot (files : List (String × FTree)) : List String :=
  match files with
  | [(n, FTree.dir _)] => [n]
  | _ => []

/-- The move loop of create.js lines 971–976: each staged entry is moved
from `temp-extract` up into the download directory.  `fs.move` first
checks that the destination does not exist; on success the entry leaves
the staging directory and is appended to the top-level listing. -/
def moveItems : List (String × FTree) → List (String × FTree) →
    List (String × FTree) × Option ExErr
  | [], top => (top, none)
  | (n, c) :: rest, top =>
    if (lookupTop top n).isSome then (top, some (ExErr.moveDestFound n))
    else
      let top1 :=
        match lookupTop top tempName with
        | some (FTree.dir cs) => setTop top tempName (FTree.dir (removeTop cs n))
        | _ => top
      moveItems rest (top1 ++ [(n, c)])

/-- `CacheManager.extractSubdirectory` (create.js lines 894–986) on the
children of the download directory.  Returns the resulting children and
the error thrown, if any.  The copy of the located subdirectory onto the
freshly created staging directory is modelled by replacing the staging
subtree (exactly `fs.copy` when the destination was just created empty,
which the hypotheses of the theorems below guarantee). -/
def extractSubdirectory (files : List (String × FTree)) (subdirectory : String) :
    List (String × FTree) × Option ExErr :=
  let root := resolveRoot files
  let srcPath := root ++ pathSegs subdirectory
  let t0 := FTree.dir files
  match lookupPath t0 srcPath with
  | none => (files, some (firstMissingWalk t0 root (strSplit subdirectory '/')))
  | some fallback =>
    let files1 := ensureDirTop files tempName
    if srcPath = [tempName] ∨ srcPath = [] then (files1, some ExErr.copyFailed)
    else
      let srcNode := (lookupPath (FTree.dir files1) srcPath).getD fallback
      let files2 := setTop files1 tempName srcNode
      let files3 := (files.map Prod.fst).foldl
        (fun acc n => if n == tempName then acc else removeTop acc n) files2
      let tempCs :=
        match lookupTop files3 tempName with
        | some (FTree.dir cs) => cs
        | _ => []
      match moveItems tempCs files3 with
      | (files4, some e) => (files4, some e)
      | (files4, none) => (removeTop files4 tempName, none)

/-! ## Cache store and orchestration: `CacheManager`

The cache root holds, per cache key, an entry directory and a metadata
file `<key>.meta.json`.  A `CacheState` records which entry directories
exist and the metadata files together with their parse result (`some m`
for a JSON document, `none` for unreadable/corrupt content, mirroring the
`JSON.parse` failure that `isCacheValid` catches).
-/

/-- A JSON metadata field value (the fields this program stores). -/
inductive MValue where
  | str (s : String) : MValue
  | int (i : Int) : MValue
  deriving DecidableEq

/-- A metadata document: an object as an ordered field list.  Duplicate
keys may arise from the object spread in `downloadAndCache`; as in
JavaScript, the later occurrence wins (see `getField`). -/
abbrev Metadata := List (String × MValue)

/-- Field access on an object literal built left to right: the last
occurrence of a key wins, as with `{ a: 1, ...{ a: 2 } }`. -/
def getField (m : Metadata) (k : String) : Option MValue :=
  m.foldl (fun acc p => if p.1 == k then some p.2 else acc) none

/-- The metadata object of create.js lines 607–612:
`{ repoUrl, cachedAt: Date.now(), cacheKey, ...options }` — the three
core fields followed by the spread of the caller-supplied options. -/
def buildMetadata (repoUrl : String) (now : Int) (cacheKey : String)
    (options : Metadata) : Metadata :=
  [("repoUrl", MValue.str repoUrl), ("cachedAt", MValue.int now),
   ("cacheKey", MValue.str cacheKey)] ++ options

/-- The configuration read at construction: `templates.cacheDir`,
`templates.cacheTime` (TTL in milliseconds) and `templates.cache`. -/
structure CMConfig where
  cacheDir : String
  cacheTime : Int
  cacheEnabled : Bool

/-- On-disk state under the cache root. -/
structure CacheState where
  /-- Keys whose cache-entry directory exists. -/
  dirs : List String
  /-- Metadata files: key ↦ parse result of `<key>.meta.json`. -/
  metas : List (String × Option Metadata)

/-- Membership in a name list. -/
def listHas : List String → String → Bool
  | [], _ => false
  | k :: rest, n => k == n || listHas rest n

/-- `fileUtils.exists(cachePath)`. -/
def dirExists (st : CacheState) (key : String) : Bool :=
  listHas st.dirs key

/-- `fs.remove` of the entry directory (absent is a no-op). -/
def removeDir (st : CacheState) (key : String) : CacheState :=
  { st with dirs := st.dirs.filter fun k => !(k == key) }

/-- The entry directory exists after a successful download populated it. -/
def addDir (st : CacheState) (key : String) : CacheState :=
  { st with dirs := key :: st.dirs }

/-- The metadata file's parse result, or `none` when the file is absent. -/
def lookupMeta (st : CacheState) (key : String) : Option (Option Metadata) :=
  alistFind st.metas key

/-- `fileUtils.writeFile` of `<key>.meta.json` (overwrites). -/
def setMeta (st : CacheState) (key : String) (m : Option Metadata) : CacheState :=
  { st with metas := (key, m) :: st.metas.filter fun p => !(p.1 == key) }

/-- `fs.remove` of the metadata file (absent is a no-op). -/
def removeMeta (st : CacheState) (key : String) : CacheState :=
  { st with metas := st.metas.filter fun p => !(p.1 == key) }

/-- `CacheManager.generateCacheKey`: the MD5 hex digest of the raw
reference string.  The digest is modelled as an opaque deterministic
key-derivation (an injective tagging); no claim below depends on the
digest algorithm itself, only on the key being a pure function of the
reference. -/
def generateCacheKey (repoUrl : String) : String :=
  "md5-" ++ repoUrl

/-- `CacheManager.getCachePath`: `path.join(cacheDir, cacheKey)`. -/
def getCachePath (cfg : CMConfig) (cacheKey : String) : String :=
  cfg.cacheDir ++ "/" ++ cacheKey

/-- `CacheManager.isCacheValid` (create.js lines 519–545): the entry
directory and metadata file must exist, the metadata must parse, and the
entry is stale exactly when `now - cachedAt > cacheTime`.  A parsed
document without an integer `cachedAt` makes that comparison a `NaN`
comparison, which is `false` in JavaScript, so such an entry counts as
fresh. -/
def isCacheValid (cfg : CMConfig) (st : CacheState) (now : Int) (repoUrl : String) : Bool :=
  let key := generateCacheKey repoUrl
  if dirExists st key = false then false
  else
    match lookupMeta st key with
    | none => false
    | some none => false
    | some (some m) =>
      match getField m "cachedAt" with
      | some (MValue.int c) => if now - c > cfg.cacheTime then false else true
      | _ => true

/-- `CacheManager.getCachedTemplate` (create.js lines 552–563). -/
def getCachedTemplate (cfg : CMConfig) (st : CacheState) (now : Int)
    (repoUrl : String) : Option String :=
  if isCacheValid cfg st now repoUrl then
    some (getCachePath cfg (generateCacheKey repoUrl))
  else none

/-- The outcome of the downloader/extraction phase inside the `try` block
of `downloadAndCache`: either the destination directory ends up fully
populated, or the phase throws (network error, repository not found,
missing subdirectory, ...), with `dirLeft` recording whether a partially
populated destination directory remained at the moment of the throw. -/
inductive FetchOutcome where
  | ok : FetchOutcome
  | fail (dirLeft : Bool) (msg : String) : FetchOutcome

/-- `CacheManager.downloadAndCache` (create.js lines 571–653): pre-clean
any existing entry directory, run the download (and extraction) phase,
then write fresh metadata; on a throw, remove the entry directory and the
metadata file if they exist and re-throw the original error.
`parseGitUrl` is consulted for the download URL and options but does not
affect the cache-state bookkeeping modelled here. -/
def downloadAndCache (cfg : CMConfig) (st : CacheState) (now : Int) (repoUrl : String)
    (options : Metadata) (outcome : FetchOutcome) : Except String String × CacheState :=
  let key := generateCacheKey repoUrl
  let st1 := removeDir st key
  match outcome with
  | FetchOutcome.ok =>
    let meta := buildMetadata repoUrl now key options
    (Except.ok (getCachePath cfg key), setMeta (addDir st1 key) key (some meta))
  | FetchOutcome.fail dirLeft msg =>
    let st2 := if dirLeft then addDir st1 key else st1
    (Except.error msg, removeMeta (removeDir st2 key) key)

/-- Result of one `getTemplate` call: the returned value (or the error it
rejects with), the cache state afterwards, and how many times the
downloader (`downloadGitRepo`) was invoked during the call. -/
structure GTResult where
  res : Except String String
  stAfter : CacheState
  downloads : Nat

/-- `CacheManager.getTemplate` (create.js lines 750–765): with caching
disabled go straight to `downloadAndCache`; otherwise return a valid
cached entry, falling back to `downloadAndCache` on a miss. -/
def getTemplate (cfg : CMConfig) (st : CacheState) (now : Int) (repoUrl : String)
    (options : Metadata) (outcome : FetchOutcome) : GTResult :=
  if cfg.cacheEnabled = false then
    let r := downloadAndCache cfg st now repoUrl options outcome
    ⟨r.1, r.2, 1⟩
  else
    match getCachedTemplate cfg st now repoUrl with
    | some p => ⟨Except.ok p, st, 0⟩
    | none =>
      let r := downloadAndCache cfg st now repoUrl options outcome
      ⟨r.1, r.2, 1⟩

/-- Is there a directory at `p`? -/
def isDirAt (t : FTree) (p : List String) : Bool :=
  match lookupPath t p with
  | some (FTree.dir _) => true
  | _ => false

/-- The prefix of a segment walk is traversable: starting from `base`,
each level is a directory and each next segment exists. -/
def dirsAlong (t : FTree) : List String → List String → Bool
  | _, [] => true
  | base, q :: rest =>
    isDirAt t base && (lookupPath t (base ++ [q])).isSome && dirsAlong t (base ++ [q]) rest

/-! ## Helper lemmas -/

theorem alistFind_filter_ne {β : Type} (l : List (String × β)) (key : String) :
    alistFind (l.filter fun p => !(p.1 == key)) key = none := by
  induction l with
  | nil => rfl
  | cons a l ih =>
    by_cases h : a.1 = key
    · simp [List.filter_cons, h, ih]
    · simp [List.filter_cons, h, alistFind, ih]

theorem listHas_filter_ne (l : List String) (key : String) :
    listHas (l.filter fun k => !(k == key)) key = false := by
  induction l with
  | nil => rfl
  | cons a l ih =>
    by_cases h : a = key
    · simp [List.filter_cons, h, ih]
    · simp [List.filter_cons, h, listHas, ih]

theorem getField_tail_some (b : Metadata) (k : String) (w : MValue) :
    ∀ init, b.foldl (fun acc p => if p.1 == k then some p.2 else acc) none = some w →
      b.foldl (fun acc p => if p.1 == k then some p.2 else acc) init = some w := by
  induction b with
  | nil => intro init h; exact absurd h (by simp)
  | cons a b ih =>
    intro init h
    simp only [List.foldl_cons] at h ⊢
    by_cases hk : a.1 = k
    · rw [if_pos (by simp [hk])] at h ⊢; exact h
    · rw [if_neg (by simp [hk])] at h ⊢; exact ih init h

theorem getField_append_some (a b : Metadata) (k : String) (w : MValue)
    (h : getField b k = some w) : getField (a ++ b) k = some w := by
  unfold getField at h ⊢
  rw [List.foldl_append]
  exact getField_tail_some b k w _ h

/-! ## The claims -/

/-- Claim C2: if the download-and-cache phase of a `getTemplate` call
fails (network error, repository not found, missing subdirectory, ...),
then after the call neither the cache-entry directory nor the metadata
file for the reference's cache key exists, and the original error is
re-thrown to the caller. -/
theorem downloadAndCache_failure_cleanup
    (cfg : CMConfig) (st : CacheState) (now : Int) (repoUrl : String)
    (options : Metadata) (dirLeft : Bool) (msg : String) :
    (downloadAndCache cfg st now repoUrl options (FetchOutcome.fail dirLeft msg)).1
        = Except.error msg ∧
    dirExists (downloadAndCache cfg st now repoUrl options (FetchOutcome.fail dirLeft msg)).2
        (generateCacheKey repoUrl) = false ∧
    lookupMeta (downloadAndCache cfg st now repoUrl options (FetchOutcome.fail dirLeft msg)).2
        (generateCacheKey repoUrl) = none := by
  refine ⟨rfl, ?_, ?_⟩
  · simp only [downloadAndCache, dirExists, removeMeta, removeDir, addDir]
    exact listHas_filter_ne _ _
  · simp only [downloadAndCache, lookupMeta, removeMeta, removeDir, addDir]
    exact alistFind_filter_ne _ _

/-- Claim C4 (evaluation at the failing input): the bare-repository regex
`^[^\/]+\/[^\/]+$` of create.js line 699 also matches `owner/repo#branch`
(a `#` is not a `/`), so `"user/repo#dev"` is handled by the bare rule —
interpolating the whole reference — instead of by the `#branch` rule of
line 705, which the claim (and the source's own comment) expects to
produce `direct:https://github.com/user/repo/archive/dev.zip`.  The bare
`owner/repo` half of the claim does hold. -/
theorem parseGitUrl_branch_shorthand_shadowed :
    parseGitUrl "user/repo" = "direct:https://github.com/user/repo/archive/main.zip" ∧
    parseGitUrl "user/repo#dev"
      = "direct:https://github.com/user/repo#dev/archive/main.zip" := by
  exact ⟨by rfl, by rfl⟩

/-- Claim C5 (Scenario A): a GitHub subtree URL resolves to the archive
locator of the repository at that branch, paired with the subdirectory. -/
theorem parseGitUrl_scenario_a :
    parseGitUrl "https://github.com/vitejs/vite/tree/main/packages/create-vite/template-vanilla"
      = "direct:https://github.com/vitejs/vite/archive/main.zip#packages/create-vite/template-vanilla" := by
  rfl

/-- Claim C6 (evaluation at the failing input): a reference that already
carries the `direct:` marker is NOT returned unchanged when it contains
`github.com` — the `includes('github.com')` branch of create.js line 662
fires first, `new URL` parses the `direct:...` string as an opaque-path
URL whose pathname is the whole embedded URL, and the owner/repo are read
off as `https:` and `github.com`, mangling the locator.  The `direct:`
passthrough of line 721 is unreachable for such references. -/
theorem parseGitUrl_direct_not_unchanged :
    parseGitUrl "direct:https://github.com/user/repo/archive/main.zip"
      = "direct:https://github.com/https:/github.com/archive/main.zip" ∧
    parseGitUrl "direct:https://github.com/user/repo/archive/main.zip"
      ≠ "direct:https://github.com/user/repo/archive/main.zip" := by
  exact ⟨by rfl, by decide⟩

/-- Claim C10: the caller-supplied options object is spread into the
metadata record after the core fields, so an option key equal to a core
field name replaces the core value; in particular an options `cachedAt`
replaces the fetch timestamp in the stored metadata, and subsequent
expiry decisions compare against the option value rather than the fetch
time. -/
theorem metadata_options_clobber (repoUrl : String) (now : Int) (options : Metadata)
    (v : Int) (hv : getField options "cachedAt" = some (MValue.int v)) :
    (∀ k w, getField options k = some w →
      getField (buildMetadata repoUrl now (generateCacheKey repoUrl) options) k = some w) ∧
    getField (buildMetadata repoUrl now (generateCacheKey repoUrl) options) "cachedAt"
      = some (MValue.int v) ∧
    ∀ (cfg : CMConfig) (now2 : Int),
      (isCacheValid cfg
          { dirs := [generateCacheKey repoUrl],
            metas := [(generateCacheKey repoUrl,
              some (buildMetadata repoUrl now (generateCacheKey repoUrl) options))] }
          now2 repoUrl = true
        ↔ now2 - v ≤ cfg.cacheTime) := by
  refine ⟨?_, ?_, ?_⟩
  · intro k w h
    exact getField_append_some _ options k w h
  · exact getField_append_some _ options "cachedAt" (MValue.int v) hv
  · intro cfg now2
    have hfield := getField_append_some
      [("repoUrl", MValue.str repoUrl), ("cachedAt", MValue.int now),
       ("cacheKey", MValue.str (generateCacheKey repoUrl))]
      options "cachedAt" (MValue.int v) hv
    simp only [List.cons_append, List.nil_append] at hfield
    simp [isCacheValid, buildMetadata, dirExists, listHas, lookupMeta, alistFind, hfield]

/-- Witness for C10 at a concrete call: options carrying `cachedAt: 42`
make the stored `cachedAt` equal to `42`, not the fetch time `100`. -/
theorem metadata_options_clobber_witness :
    getField (buildMetadata "user/repo" 100 (generateCacheKey "user/repo")
        [("cachedAt", MValue.int 42)]) "cachedAt" = some (MValue.int 42) :=
  (metadata_options_clobber "user/repo" 100 [("cachedAt", MValue.int 42)] 42 (by rfl)).2.1

/-- Claim C3: `isCacheValid` is true iff the entry directory exists, the
metadata file exists and parses, and the age does not exceed the TTL;
expiry is the strict comparison `now - cachedAt > cacheTime`, so an age
of `ttl + 1` is invalid and an age of `ttl - 1` is valid.  (The iff is
stated for metadata carrying an integer `cachedAt`, which is what this
program writes; the final three conjuncts give the only-if direction for
a missing directory, a missing metadata file, and unparseable metadata.) -/
theorem isCacheValid_spec (cfg : CMConfig) (st : CacheState) (now : Int) (repoUrl : String)
    (m : Metadata) (c : Int)
    (hd : dirExists st (generateCacheKey repoUrl) = true)
    (hm : lookupMeta st (generateCacheKey repoUrl) = some (some m))
    (hc : getField m "cachedAt" = some (MValue.int c)) :
    (isCacheValid cfg st now repoUrl = true ↔ now - c ≤ cfg.cacheTime) ∧
    (now - c = cfg.cacheTime + 1 → isCacheValid cfg st now repoUrl = false) ∧
    (now - c = cfg.cacheTime - 1 → isCacheValid cfg st now repoUrl = true) ∧
    (∀ st2, dirExists st2 (generateCacheKey repoUrl) = false →
      isCacheValid cfg st2 now repoUrl = false) ∧
    (∀ st2, dirExists st2 (generateCacheKey repoUrl) = true →
      lookupMeta st2 (generateCacheKey repoUrl) = none →
      isCacheValid cfg st2 now repoUrl = false) ∧
    (∀ st2, dirExists st2 (generateCacheKey repoUrl) = true →
      lookupMeta st2 (generateCacheKey repoUrl) = some none →
      isCacheValid cfg st2 now repoUrl = false) := by
  have hval : isCacheValid cfg st now repoUrl
      = if now - c > cfg.cacheTime then false else true := by
    simp [isCacheValid, hd, hm, hc]
  refine ⟨?_, ?_, ?_, ?_, ?_, ?_⟩
  · rw [hval]; split_ifs with h <;> simp <;> omega
  · intro hage; rw [hval]; split_ifs with h
    · rfl
    · omega
  · intro hage; rw [hval]; split_ifs with h
    · omega
    · rfl
  · intro st2 h2; simp [isCacheValid, h2]
  · intro st2 h2 h3; simp [isCacheValid, h2, h3]
  · intro st2 h2 h3; simp [isCacheValid, h2, h3]

/-- Witness for C3 at a concrete state: directory and parsed metadata
with `cachedAt = 0` present, `now = 9`, `ttl = 10` — age `ttl - 1`, so
the entry is valid. -/
theorem isCacheValid_spec_witness :
    isCacheValid ⟨"cache", 10, true⟩
      ⟨[generateCacheKey "user/repo"],
       [(generateCacheKey "user/repo", some [("cachedAt", MValue.int 0)])]⟩
      9 "user/repo" = true :=
  (isCacheValid_spec ⟨"cache", 10, true⟩
      ⟨[generateCacheKey "user/repo"],
       [(generateCacheKey "user/repo", some [("cachedAt", MValue.int 0)])]⟩
      9 "user/repo" [("cachedAt", MValue.int 0)] 0 (by rfl) (by rfl) (by rfl)).2.2.1 (by decide)

/-- Claim C1: with caching enabled and the TTL not elapsed between the
calls, calling `getTemplate` twice in succession downloads exactly once:
the first call (a miss) invokes the downloader once, caches, and returns
the entry path; the second call returns the same directory path with zero
downloader invocations — whatever the downloader would have done
(`o2` is arbitrary) — and leaves the state untouched. -/
theorem getTemplate_fetches_once
    (cfg : CMConfig) (st : CacheState) (t1 t2 : Int) (repoUrl : String) (o2 : FetchOutcome)
    (hen : cfg.cacheEnabled = true)
    (hmiss : isCacheValid cfg st t1 repoUrl = false)
    (httl : t2 - t1 ≤ cfg.cacheTime) :
    (getTemplate cfg st t1 repoUrl [] FetchOutcome.ok).downloads = 1 ∧
    (getTemplate cfg st t1 repoUrl [] FetchOutcome.ok).res
      = Except.ok (getCachePath cfg (generateCacheKey repoUrl)) ∧
    (getTemplate cfg (getTemplate cfg st t1 repoUrl [] FetchOutcome.ok).stAfter
        t2 repoUrl [] o2).downloads = 0 ∧
    (getTemplate cfg (getTemplate cfg st t1 repoUrl [] FetchOutcome.ok).stAfter
        t2 repoUrl [] o2).res
      = Except.ok (getCachePath cfg (generateCacheKey repoUrl)) ∧
    (getTemplate cfg (getTemplate cfg st t1 repoUrl [] FetchOutcome.ok).stAfter
        t2 repoUrl [] o2).stAfter
      = (getTemplate cfg st t1 repoUrl [] FetchOutcome.ok).stAfter := by
  have h1 : getTemplate cfg st t1 repoUrl [] FetchOutcome.ok
      = ⟨Except.ok (getCachePath cfg (generateCacheKey repoUrl)),
         setMeta (addDir (removeDir st (generateCacheKey repoUrl)) (generateCacheKey repoUrl))
           (generateCacheKey repoUrl)
           (some (buildMetadata repoUrl t1 (generateCacheKey repoUrl) [])), 1⟩ := by
    simp [getTemplate, hen, getCachedTemplate, hmiss, downloadAndCache]
  have hvalid : isCacheValid cfg
      (setMeta (addDir (removeDir st (generateCacheKey repoUrl)) (generateCacheKey repoUrl))
        (generateCacheKey repoUrl)
        (some (buildMetadata repoUrl t1 (generateCacheKey repoUrl) []))) t2 repoUrl = true := by
    simp [isCacheValid, dirExists, setMeta, addDir, removeDir, listHas, lookupMeta,
      alistFind, buildMetadata, getField]
    omega
  have h2 : getTemplate cfg
      (setMeta (addDir (removeDir st (generateCacheKey repoUrl)) (generateCacheKey repoUrl))
        (generateCacheKey repoUrl)
        (some (buildMetadata repoUrl t1 (generateCacheKey repoUrl) []))) t2 repoUrl [] o2
      = ⟨Except.ok (getCachePath cfg (generateCacheKey repoUrl)),
         setMeta (addDir (removeDir st (generateCacheKey repoUrl)) (generateCacheKey repoUrl))
           (generateCacheKey repoUrl)
           (some (buildMetadata repoUrl t1 (generateCacheKey repoUrl) [])), 0⟩ := by
    simp [getTemplate, hen, getCachedTemplate, hvalid]
  refine ⟨?_, ?_, ?_, ?_, ?_⟩ <;> simp [h1, h2]

/-- Witness for C1 at a concrete run: empty cache, `ttl = 100`, first
call at time `0`, second at time `50`, second call's downloader oracle a
failure (it is never consulted). -/
theorem getTemplate_fetches_once_witness :
    (getTemplate ⟨"cache", 100, true⟩ ⟨[], []⟩ 0 "user/repo" [] FetchOutcome.ok).downloads = 1 ∧
    (getTemplate ⟨"cache", 100, true⟩ ⟨[], []⟩ 0 "user/repo" [] FetchOutcome.ok).res
      = Except.ok (getCachePath ⟨"cache", 100, true⟩ (generateCacheKey "user/repo")) ∧
    (getTemplate ⟨"cache", 100, true⟩
        (getTemplate ⟨"cache", 100, true⟩ ⟨[], []⟩ 0 "user/repo" [] FetchOutcome.ok).stAfter
        50 "user/repo" [] (FetchOutcome.fail false "network down")).downloads = 0 ∧
    (getTemplate ⟨"cache", 100, true⟩
        (getTemplate ⟨"cache", 100, true⟩ ⟨[], []⟩ 0 "user/repo" [] FetchOutcome.ok).stAfter
        50 "user/repo" [] (FetchOutcome.fail false "network down")).res
      = Except.ok (getCachePath ⟨"cache", 100, true⟩ (generateCacheKey "user/repo")) ∧
    (getTemplate ⟨"cache", 100, true⟩
        (getTemplate ⟨"cache", 100, true⟩ ⟨[], []⟩ 0 "user/repo" [] FetchOutcome.ok).stAfter
        50 "user/repo" [] (FetchOutcome.fail false "network down")).stAfter
      = (getTemplate ⟨"cache", 100, true⟩ ⟨[], []⟩ 0 "user/repo" [] FetchOutcome.ok).stAfter :=
  getTemplate_fetches_once ⟨"cache", 100, true⟩ ⟨[], []⟩ 0 50 "user/repo"
    (FetchOutcome.fail false "network down") (by rfl) (by rfl) (by decide)

theorem lookupPath_append_none (q : List String) :
    ∀ (t : FTree) (p : List String), lookupPath t p = none → lookupPath t (p ++ q) = none := by
  intro t p
  induction p generalizing t with
  | nil => intro h; exact absurd h (by simp [lookupPath])
  | cons n p ih =>
    intro h
    cases t with
    | file c => rfl
    | dir cs =>
      simp only [List.cons_append, lookupPath] at h ⊢
      cases hl : lookupTop cs n with
      | none => rfl
      | some c => rw [hl] at h; exact ih c h

theorem firstMissingWalk_spec (t : FTree) (p : String) (post : List String) (hp : p ≠ "") :
    ∀ (pre : List String) (base : List String) (cs : List (String × FTree)),
    (∀ q ∈ pre, q ≠ "") →
    dirsAlong t base pre = true →
    lookupPath t (base ++ pre) = some (FTree.dir cs) →
    lookupPath t (base ++ pre ++ [p]) = none →
    firstMissingWalk t base (pre ++ p :: post) = ExErr.subdirMissing p (cs.map Prod.fst) := by
  intro pre
  induction pre with
  | nil =>
    intro base cs _ _ hlevel hmissing
    simp only [List.append_nil] at hlevel hmissing
    simp only [List.nil_append, firstMissingWalk, hlevel]
    rw [if_neg hp, hmissing]
    rfl
  | cons q pre ih =>
    intro base cs hne hchain hlevel hmissing
    have hq : q ≠ "" := hne q (by simp)
    simp only [dirsAlong, Bool.and_eq_true] at hchain
    obtain ⟨⟨hdir, hnext⟩, hrest⟩ := hchain
    obtain ⟨cs0, hb⟩ : ∃ cs0, lookupPath t base = some (FTree.dir cs0) := by
      rw [isDirAt] at hdir
      cases hbb : lookupPath t base with
      | none => rw [hbb] at hdir; exact Bool.noConfusion hdir
      | some tb =>
        cases tb with
        | file c => rw [hbb] at hdir; exact Bool.noConfusion hdir
        | dir cs0 => exact ⟨cs0, rfl⟩
    have hlevel2 : lookupPath t ((base ++ [q]) ++ pre) = some (FTree.dir cs) := by
      rw [← hlevel]; simp
    have hmissing2 : lookupPath t ((base ++ [q]) ++ pre ++ [p]) = none := by
      rw [← hmissing]; simp
    have hrec := ih (base ++ [q]) cs (fun r hr => hne r (by simp [hr])) hrest hlevel2 hmissing2
    simp only [List.cons_append, firstMissingWalk, hb]
    rw [if_neg hq, hnext]
    simpa using hrec

/-- Claim C9 (amended): running `extractSubdirectory` against a directory
whose resolved root no longer contains the subdirectory path — as is the
case after a correct extraction whose output does not itself contain the
path — is not a silent no-op: it throws a subdirectory-not-found error
before any mutation, leaving the directory state unchanged. -/
theorem extractSubdirectory_absent_fails (files : List (String × FTree)) (s : String)
    (hmiss : lookupPath (FTree.dir files) (resolveRoot files ++ pathSegs s) = none) :
    (extractSubdirectory files s).1 = files ∧
    ((extractSubdirectory files s).2).isSome = true := by
  simp [extractSubdirectory, hmiss]

/-- Witness for the amended C9 at the state left behind by a successful
extraction of `foo` (its contents were promoted, so `foo` is gone). -/
theorem extractSubdirectory_absent_fails_witness :
    (extractSubdirectory [("a", FTree.file "x")] "foo").1 = [("a", FTree.file "x")] ∧
    ((extractSubdirectory [("a", FTree.file "x")] "foo").2).isSome = true :=
  extractSubdirectory_absent_fails [("a", FTree.file "x")] "foo" (by rfl)

/-- Counterexample to C9 as stated: extracting `foo` from a wrapped
download yields `[("a", file)]`; running the same extraction again on
that already-extracted state is not a no-op — it does not return the
same state with success, but throws (`SubdirectoryNotFoundError`). -/
theorem extractSubdirectory_rerun_not_noop :
    extractSubdirectory
        [("repo-main", FTree.dir [("foo", FTree.dir [("a", FTree.file "x")])])] "foo"
      = ([("a", FTree.file "x")], none) ∧
    extractSubdirectory [("a", FTree.file "x")] "foo" ≠ ([("a", FTree.file "x")], none) := by
  refine ⟨by rfl, ?_⟩
  intro h
  have h2 : (([("a", FTree.file "x")], some (ExErr.subdirMissing "foo" ["a"])) :
      List (String × FTree) × Option ExErr) = ([("a", FTree.file "x")], none) := h
  exact Option.noConfusion (congrArg Prod.snd h2)

/-- Claim C8 (amended): when the requested subdirectory path has a first
missing segment and every earlier segment resolves to a directory,
`extractSubdirectory` fails with an error naming that exact segment and
listing the entries found at that level.  (If an intermediate segment
exists but is a file, the walk instead dies reading it — see the
counterexample theorem.) -/
theorem extractSubdirectory_missing_segment
    (files : List (String × FTree)) (s : String) (pre post : List String) (p : String)
    (cs : List (String × FTree))
    (hsegs : strSplit s '/' = pre ++ p :: post)
    (hne : ∀ q ∈ pre ++ p :: post, q ≠ "")
    (hchain : dirsAlong (FTree.dir files) (resolveRoot files) pre = true)
    (hlevel : lookupPath (FTree.dir files) (resolveRoot files ++ pre) = some (FTree.dir cs))
    (hmissing : lookupPath (FTree.dir files) (resolveRoot files ++ pre ++ [p]) = none) :
    extractSubdirectory files s = (files, some (ExErr.subdirMissing p (cs.map Prod.fst))) := by
  have hp : p ≠ "" := hne p (by simp)
  have hsegs2 : pathSegs s = pre ++ p :: post := by
    rw [pathSegs, hsegs]
    apply List.filter_eq_self.mpr
    intro a ha
    simpa using hne a ha
  have hshape : resolveRoot files ++ (pre ++ p :: post)
      = (resolveRoot files ++ pre ++ [p]) ++ post := by simp
  have hsrc : lookupPath (FTree.dir files) (resolveRoot files ++ pathSegs s) = none := by
    rw [hsegs2, hshape]
    exact lookupPath_append_none post _ _ hmissing
  have hwalk : firstMissingWalk (FTree.dir files) (resolveRoot files) (strSplit s '/')
      = ExErr.subdirMissing p (cs.map Prod.fst) := by
    rw [hsegs]
    exact firstMissingWalk_spec _ p post hp pre (resolveRoot files) cs
      (fun q hq => hne q (by simp [hq])) hchain hlevel hmissing
  simp [extractSubdirectory, hsrc, hwalk]

/-- Witness for the amended C8: looking for `a/b` when `a` is a directory
containing only `c` fails naming segment `b` and listing sibling `c`. -/
theorem extractSubdirectory_missing_segment_witness :
    extractSubdirectory [("a", FTree.dir [("c", FTree.file "x")]), ("z", FTree.file "y")] "a/b"
      = ([("a", FTree.dir [("c", FTree.file "x")]), ("z", FTree.file "y")],
         some (ExErr.subdirMissing "b" ["c"])) :=
  extractSubdirectory_missing_segment
    [("a", FTree.dir [("c", FTree.file "x")]), ("z", FTree.file "y")] "a/b"
    ["a"] [] "b" [("c", FTree.file "x")] (by rfl) (by decide) (by rfl) (by rfl) (by rfl)

/-- Counterexample to C8 as stated: with `a` existing as a *file*, the
segment `b` of `a/b` does not exist under the resolved root, but the walk
re-reads `a` as a directory and dies with `ENOTDIR` — an error that names
neither the missing segment `b` nor any sibling listing. -/
theorem extractSubdirectory_file_segment_generic_error :
    extractSubdirectory [("a", FTree.file "x"), ("z", FTree.file "y")] "a/b"
      = ([("a", FTree.file "x"), ("z", FTree.file "y")], some ExErr.walkReadFailed) ∧
    some ExErr.walkReadFailed ≠ some (ExErr.subdirMissing "b" []) := by
  exact ⟨by rfl, by decide⟩

theorem lookupTop_append_one (a : List (String × FTree)) (x : String × FTree) (m : String)
    (ha : lookupTop a m = none) (hx : (x.1 == m) = false) :
    lookupTop (a ++ [x]) m = none := by
  induction a with
  | nil =>
    obtain ⟨x1, x2⟩ := x
    simp only [List.nil_append, lookupTop, alistFind]
    rw [if_neg (by simpa using hx)]
  | cons b a ih =>
    obtain ⟨b1, b2⟩ := b
    simp only [lookupTop, alistFind, List.cons_append] at ha ⊢
    by_cases hb : b1 == m
    · rw [if_pos hb] at ha; exact absurd ha (by simp)
    · rw [if_neg hb] at ha ⊢; exact ih ha

theorem moveItems_ok : ∀ (items acc cs : List (String × FTree)),
    (items.map Prod.fst).Nodup →
    (∀ n ∈ items.map Prod.fst, n ≠ tempName ∧ lookupTop acc n = none) →
    ∃ cs2, moveItems items ((tempName, FTree.dir cs) :: acc)
      = ((tempName, FTree.dir cs2) :: (acc ++ items), none) := by
  intro items
  induction items with
  | nil => intro acc cs _ _; exact ⟨cs, by simp [moveItems]⟩
  | cons hd tl ih =>
    intro acc cs hnodup hcond
    obtain ⟨n, c⟩ := hd
    obtain ⟨hnt, hacc⟩ := hcond n (by simp)
    have hnb : (tempName == n) = false := by
      simpa using fun he => hnt he.symm
    have hlk : lookupTop ((tempName, FTree.dir cs) :: acc) n = none := by
      simp only [lookupTop, alistFind]
      rw [if_neg (by simpa using fun he => hnt he.symm)]
      exact hacc
    have hstep : moveItems ((n, c) :: tl) ((tempName, FTree.dir cs) :: acc)
        = moveItems tl ((tempName, FTree.dir (removeTop cs n)) :: (acc ++ [(n, c)])) := by
      simp [moveItems, hlk]
      simp [lookupTop, alistFind, setTop]
    rw [List.map_cons] at hnodup
    obtain ⟨hnotin, hnodup2⟩ := List.nodup_cons.mp hnodup
    have hcond2 : ∀ m ∈ tl.map Prod.fst, m ≠ tempName ∧
        lookupTop (acc ++ [(n, c)]) m = none := by
      intro m hm
      obtain ⟨h1, h2⟩ := hcond m (by simp [hm])
      refine ⟨h1, ?_⟩
      have hmn : (n == m) = false := by
        simp only [beq_eq_false_iff_ne]
        intro he
        exact hnotin (he ▸ hm)
      exact lookupTop_append_one acc (n, c) m h2 hmn
    obtain ⟨cs2, h2⟩ := ih (acc ++ [(n, c)]) (removeTop cs n) hnodup2 hcond2
    refine ⟨cs2, ?_⟩
    rw [hstep, h2]
    simp

/-- Claim C7 (amended): for a download directory whose top level is
exactly one directory (the archive wrapper, detected structurally — the
result holds for every wrapper name, so no name matching is involved),
extracting a subdirectory that exists as a directory inside the wrapper
leaves the download directory containing exactly that subdirectory's
children, wrapper and siblings removed — provided the wrapper is not
itself named `temp-extract` and the subdirectory's children do not
include an entry named `temp-extract` (the staging name the
implementation reserves; see the counterexample theorem). -/
theorem extractSubdirectory_wrapper
    (w : String) (wc subCs : List (String × FTree)) (s : String)
    (hw : w ≠ tempName)
    (hsub : lookupPath (FTree.dir wc) (pathSegs s) = some (FTree.dir subCs))
    (hnodup : (subCs.map Prod.fst).Nodup)
    (hnotemp : tempName ∉ subCs.map Prod.fst) :
    extractSubdirectory [(w, FTree.dir wc)] s = (subCs, none) := by
  have hwb : (w == tempName) = false := by simpa using hw
  have hlook : lookupPath (FTree.dir [(w, FTree.dir wc)]) (w :: pathSegs s)
      = some (FTree.dir subCs) := by
    simp [lookupPath, lookupTop, alistFind, hsub]
  obtain ⟨cs2, hmv⟩ := moveItems_ok subCs [] subCs hnodup
    (fun n hn => ⟨fun he => hnotemp (he ▸ hn), rfl⟩)
  have hne1 : ¬(w :: pathSegs s = [tempName] ∨ w :: pathSegs s = []) := by
    rintro (h | h)
    · rw [List.cons.injEq] at h
      exact hw h.1
    · exact List.noConfusion h
  have hlook2 : lookupPath (FTree.dir [(w, FTree.dir wc), (tempName, FTree.dir [])])
      (w :: pathSegs s) = some (FTree.dir subCs) := by
    simp [lookupPath, lookupTop, alistFind, hsub]
  simp only [List.nil_append] at hmv
  simp only [extractSubdirectory, resolveRoot, List.singleton_append, hlook]
  rw [if_neg hne1]
  simp [ensureDirTop, lookupTop, alistFind, hwb, hw, hlook2, setTop, removeTop, hmv]

/-- Witness for the amended C7 (Scenario E): wrapper `repo-main/` with a
sibling file, subdirectory `packages/foo` — extraction leaves exactly
`foo`'s children at the top, with the wrapper gone. -/
theorem extractSubdirectory_wrapper_witness :
    extractSubdirectory
        [("repo-main", FTree.dir
          [("packages", FTree.dir [("foo", FTree.dir [("a", FTree.file "x")])]),
           ("README.md", FTree.file "r")])]
        "packages/foo"
      = ([("a", FTree.file "x")], none) :=
  extractSubdirectory_wrapper "repo-main"
    [("packages", FTree.dir [("foo", FTree.dir [("a", FTree.file "x")])]),
     ("README.md", FTree.file "r")]
    [("a", FTree.file "x")] "packages/foo"
    (by decide) (by rfl) (by decide) (by decide)

/-- Counterexample to C7 as stated: if the extracted subdirectory itself
contains an entry named `temp-extract`, the final move collides with the
staging directory (`fs.move` refuses an existing destination), so the
call throws instead of leaving the subdirectory's contents at top level. -/
theorem extractSubdirectory_temp_collision :
    extractSubdirectory
        [("repo-main", FTree.dir [("foo", FTree.dir [("temp-extract", FTree.dir [])])])] "foo"
      ≠ ([("temp-extract", FTree.dir [])], none) := by
  intro h
  have h2 : (([("temp-extract", FTree.dir [("temp-extract", FTree.dir [])])],
      some (ExErr.moveDestFound "temp-extract")) :
      List (String × FTree) × Option ExErr) = ([("temp-extract", FTree.dir [])], none) := h
  exact Option.noConfusion (congrArg Prod.snd h2)
